import Mathlib

/-!
Shallow embedding of github.com/fasaxc/permutation (Go).

The library provides key-dependent bijective permutations over integer
ranges.  Two fixed-domain Feistel engines exist:

* `FFX` (src/unnamed/part_000): FFX-A2 over AES with a CBC-MAC round
  function; domain `[0, 2^lengthBits)` for `lengthBits` in `[8, 128]`.
* `FeistelSHAKE128` (src/README.md, second code block; also the older
  `PowerOf2` in src/unnamed/part_001 / src/permute.go): Feistel with
  SHAKE128 as the round PRF; domain `[0, 2^lengthBits)` for
  `lengthBits ≥ 2`.

`ArbitraryN` (src/unnamed/part_002) adapts either engine to an arbitrary
range `[0, N)` by cycle walking.

External primitives (AES block encryption, HKDF, the SHAKE XOF) are
opaque collaborators of the repository; where a claim quantifies over
"every key" they are modelled as arbitrary function parameters.  For the
concrete README example the SHAKE128 primitive (Keccak) is embedded in
full so the mapping can be evaluated.

Machine integers: the Go code works on `uint64` halves and `big.Int`
values; halves are bounded by `2^64` in every reachable configuration
(`lengthBits ≤ 128`), so `Nat` with explicit truncations `% 2^w`
mirrors the `uint64` masking `(out << bitsToLose) >> bitsToLose`.
-/

/-! ## Shared Feistel core

Both engines run the identical loop shape (part_000 lines 122-127,
README lines 95-99):

  for i := range p.rounds { c = a ^ RoundFunc(i, b); a = b; b = c }

with `rf i b` the (already width-truncated) round-function output.
`feistelLoop rf i n (a, b)` runs rounds `i, i+1, ..., i+n-1`.
-/

def feistelLoop (rf : Nat → Nat → Nat) : Nat → Nat → Nat × Nat → Nat × Nat
  | _, 0, ab => ab
  | i, n + 1, ab => feistelLoop rf (i + 1) n (ab.2, ab.1 ^^^ rf i ab.2)

/-- Split into high half `a` and the low `lowBits` bits `b`, run the
rounds, reassemble as `(a <<< lowBits) ||| b`.  This is the common body
of `FFX.PermuteInPlace` (part_000 lines 103-135, with
`lowBits = lengthBits - split`) and `FeistelSHAKE128.PermuteInPlace`
(README lines 83-103, with `lowBits = split`). -/
def feistelPermute (rf : Nat → Nat → Nat) (lowBits rounds x : Nat) : Nat :=
  let b := x &&& (2 ^ lowBits - 1)
  let a := x >>> lowBits
  let p := feistelLoop rf 0 rounds (a, b)
  (p.1 <<< lowBits) ||| p.2

/-! ## FFX engine (src/unnamed/part_000) -/

/-- Round-count table from `NewFFX` (part_000 lines 47-58). -/
def FFX.rounds (lengthBits : Nat) : Nat :=
  if lengthBits ≤ 9 then 36
  else if lengthBits ≤ 13 then 30
  else if lengthBits ≤ 19 then 24
  else if lengthBits ≤ 31 then 18
  else 12

/-- Truncation width of `FFX.RoundFunc` (part_000 lines 164-169):
even rounds keep `split = lengthBits / 2` bits, odd rounds keep
`lengthBits - split` bits. -/
def FFX.bitsToKeep (lengthBits i : Nat) : Nat :=
  if i % 2 = 0 then lengthBits / 2 else lengthBits - lengthBits / 2

/-- `FFX.RoundFunc` (part_000 lines 146-173).  The raw 64-bit CBC-MAC
output (an AES computation over the Q buffer, external primitive) is the
opaque `F i b`; the in-repo truncation
`(out << bitsToLose) >> bitsToLose` on `uint64` equals
`% 2 ^ bitsToKeep`. -/
def FFX.RoundFunc (F : Nat → Nat → Nat) (lengthBits i b : Nat) : Nat :=
  F i b % 2 ^ FFX.bitsToKeep lengthBits i

/-- `FFX.PermuteInPlace` (part_000 lines 103-135): the B half is the
low `lengthBits - split` bits (mask built in `NewFFX` lines 60-65), the
A half the remaining high bits. -/
def FFX.PermuteInPlace (F : Nat → Nat → Nat) (lengthBits x : Nat) : Nat :=
  feistelPermute (FFX.RoundFunc F lengthBits)
    (lengthBits - lengthBits / 2) (FFX.rounds lengthBits) x

/-! ## FeistelSHAKE128 engine (src/README.md second code block;
older copies: `PowerOf2` in src/unnamed/part_001 and
`PermutationPowerOf2` in src/permute.go) -/

/-- Round-count table from `NewPowerOf2` (README lines 57-68,
part_001 lines 76-87): textually the same table as `NewFFX`. -/
def FeistelSHAKE128.rounds (lengthBits : Nat) : Nat :=
  if lengthBits ≤ 9 then 36
  else if lengthBits ≤ 13 then 30
  else if lengthBits ≤ 19 then 24
  else if lengthBits ≤ 31 then 18
  else 12

/-- Round-function output width (README lines 106-113): even rounds
produce `lengthBits - lengthBits / 2` bits, odd rounds
`lengthBits / 2` bits. -/
def FeistelSHAKE128.outLenBits (lengthBits round : Nat) : Nat :=
  if round % 2 = 0 then lengthBits - lengthBits / 2 else lengthBits / 2

/-- `FeistelSHAKE128.RoundFunc` with the SHAKE squeeze abstracted:
`G round b` is the big-endian value of the `outLenBytes` squeezed bytes
(external XOF); masking the high bits of the first byte
(README lines 141-145) makes the result `% 2 ^ outLenBits`. -/
def FeistelSHAKE128.RoundFuncMasked (G : Nat → Nat → Nat)
    (lengthBits round b : Nat) : Nat :=
  G round b % 2 ^ FeistelSHAKE128.outLenBits lengthBits round

/-- `FeistelSHAKE128.PermuteInPlace` (README lines 83-103): the B half
is the low `split = lengthBits / 2` bits.  This total model is faithful
on the engine's domain `[0, 2 ^ lengthBits)`, where every round input
fits its `FillBytes` scratch slice; out of domain the Go code can panic
inside `RoundFunc` instead, which `FeistelSHAKE128.PermuteChecked`
below models and which only claim C4 concerns. -/
def FeistelSHAKE128.PermuteInPlace (G : Nat → Nat → Nat) (lengthBits x : Nat) : Nat :=
  feistelPermute (FeistelSHAKE128.RoundFuncMasked G lengthBits)
    (lengthBits / 2) (FeistelSHAKE128.rounds lengthBits) x

/-- Round-function input width (README lines 106-113), the complement
of `outLenBits`: even rounds read the `lengthBits / 2`-bit half, odd
rounds the `lengthBits - lengthBits / 2`-bit half. -/
def FeistelSHAKE128.inLenBits (lengthBits round : Nat) : Nat :=
  if round % 2 = 0 then lengthBits / 2 else lengthBits - lengthBits / 2

/-- `FeistelSHAKE128.RoundFunc` with the `big.Int.FillBytes` fit check
kept (README lines 133-135): the half `b` is serialised into a scratch
slice of `inLenBytes = (inLenBits + 7) / 8` bytes, and `FillBytes`
panics ("buffer too small to fit value") when `b` does not fit, i.e.
when `b ≥ 2 ^ (8 * inLenBytes)`; the panic is modelled as `none`.  When
`b` fits, the result is exactly `RoundFuncMasked`. -/
def FeistelSHAKE128.RoundFuncChecked (G : Nat → Nat → Nat)
    (lengthBits round b : Nat) : Option Nat :=
  if b < 2 ^ (8 * ((FeistelSHAKE128.inLenBits lengthBits round + 7) / 8)) then
    some (G round b % 2 ^ FeistelSHAKE128.outLenBits lengthBits round)
  else none

/-- The shared Feistel loop with a fallible round function: a `none`
from any round (a `FillBytes` panic in the Go code) aborts the whole
permutation. -/
def feistelLoopChecked (rf : Nat → Nat → Option Nat) :
    Nat → Nat → Nat × Nat → Option (Nat × Nat)
  | _, 0, ab => some ab
  | i, n + 1, ab =>
    Option.bind (rf i ab.2)
      (fun f => feistelLoopChecked rf (i + 1) n (ab.2, ab.1 ^^^ f))

/-- `FeistelSHAKE128.PermuteInPlace` with the Go error path kept:
the same split, loop and reassembly as `FeistelSHAKE128.PermuteInPlace`
but with the round function `RoundFuncChecked`, so a `FillBytes` panic
inside any round surfaces as `none` instead of being collapsed.  On
`[0, 2 ^ lengthBits)` every round input fits and the two models agree;
out of domain they can differ, which claim C4 observes. -/
def FeistelSHAKE128.PermuteChecked (G : Nat → Nat → Nat)
    (lengthBits x : Nat) : Option Nat :=
  Option.map (fun p => (p.1 <<< (lengthBits / 2)) ||| p.2)
    (feistelLoopChecked (FeistelSHAKE128.RoundFuncChecked G lengthBits) 0
      (FeistelSHAKE128.rounds lengthBits)
      (x >>> (lengthBits / 2), x &&& (2 ^ (lengthBits / 2) - 1)))

/-! ## Initial half splits of the two engines, named for reference

These are the `a` and `b` values computed at the top of each engine
`PermuteInPlace` before the round loop (the instantiations of
`feistelPermute` above with `lowBits = lengthBits - split` for FFX and
`lowBits = split` for FeistelSHAKE128, `split = lengthBits / 2`). -/

/-- B half of the FFX initial split (part_000 lines 106-107 with the
mask from `NewFFX` lines 60-65): the low `lengthBits - split` bits. -/
def FFX.splitB (lengthBits x : Nat) : Nat :=
  x &&& (2 ^ (lengthBits - lengthBits / 2) - 1)

/-- A half of the FFX initial split (part_000 lines 108-109). -/
def FFX.splitA (lengthBits x : Nat) : Nat :=
  x >>> (lengthBits - lengthBits / 2)

/-- B half of the FeistelSHAKE128 initial split (README lines 84-93):
the low `split = lengthBits / 2` bits. -/
def FeistelSHAKE128.splitB (lengthBits x : Nat) : Nat :=
  x &&& (2 ^ (lengthBits / 2) - 1)

/-- A half of the FeistelSHAKE128 initial split (README line 94). -/
def FeistelSHAKE128.splitA (lengthBits x : Nat) : Nat :=
  x >>> (lengthBits / 2)

/-! ## ArbitraryN range adapter (src/unnamed/part_002) -/

/-- The cycle-walking loop of `ArbitraryN.PermuteInPlace` (part_002
lines 59-67).  The Go loop is unbounded; `fuel` bounds the number of
applications of `g` in the model and `none` marks fuel exhaustion.  The
termination theorem shows `fuel = 2 ^ lengthBits` always suffices when
`g` is a permutation of `[0, 2 ^ lengthBits)`. -/
def cycleWalk (g : Nat → Nat) (n : Nat) : Nat → Nat → Option Nat
  | 0, _ => none
  | fuel + 1, x =>
    let y := g x
    if y < n then some y else cycleWalk g n fuel y

/-- `ArbitraryN.PermuteInPlace` (part_002 lines 53-68): inputs `≥ n`
panic (modelled `none`), otherwise the underlying permutation is
iterated until the value is `< n`. -/
def ArbitraryN.PermuteInPlace (g : Nat → Nat) (n fuel x : Nat) : Option Nat :=
  if n ≤ x then none else cycleWalk g n fuel x

/-- Halving recursion for the bit length, with explicit fuel so that it
is structurally recursive (and hence evaluates inside the kernel);
`fuel ≥ m` always suffices since the argument at least halves. -/
def bitLenAux : Nat → Nat → Nat
  | 0, _ => 0
  | fuel + 1, m => if m = 0 then 0 else bitLenAux fuel (m / 2) + 1

/-- Bit length of a natural number, as Go `big.Int.BitLen`:
`0` for `0`, otherwise `floor(log2 m) + 1` (the bridge to `Nat.log2` is
proved below). -/
def bitLen (m : Nat) : Nat := bitLenAux m m

/-- Domain-width derivation of `NewN` (part_002 lines 25-32):
bit length of `n - 1`, clamped to a minimum of `2`. -/
def NewN.lengthBits (n : Nat) : Nat :=
  let bl := bitLen (n - 1)
  if bl ≤ 1 then 2 else bl

/-- Engine selection of `NewN` (part_002 lines 33-39): FFX exactly when
the derived bit length is in `[8, 128]`. -/
def NewN.usesFFX (n : Nat) : Bool :=
  8 ≤ NewN.lengthBits n && NewN.lengthBits n ≤ 128

/-- Full `NewN` + `ArbitraryN.PermuteInPlace` pipeline: derive the
width, pick the engine, cycle-walk.  `F` and `G` are the opaque raw
round primitives of the two engines (determined by the key). -/
def NewN.permute (F G : Nat → Nat → Nat) (n x : Nat) : Option Nat :=
  let L := NewN.lengthBits n
  let g := if NewN.usesFFX n then FFX.PermuteInPlace F L
           else FeistelSHAKE128.PermuteInPlace G L
  ArbitraryN.PermuteInPlace g n (2 ^ L) x

/-! ## FFX tweak-length cache (part_000 lines 137-144)

`calculateEncryptedP` re-encrypts the header block P only when the
tweak length differs from the cached one (`tweakLen`, initialised to
`-1` in `NewFFX`).  `E t` models `aes.Encrypt` of the header block with
tweak length `t` written into bytes 8-16 (all other header fields are
fixed at construction). -/

structure FFX.CacheState where
  tweakLen : Int
  encryptedP : Nat

/-- Cache state set up by `NewFFX` (part_000 line 72): sentinel `-1`,
`encryptedP` still the zero block. -/
def FFX.initCache : FFX.CacheState := ⟨-1, 0⟩

/-- `FFX.calculateEncryptedP` (part_000 lines 137-144). -/
def FFX.calculateEncryptedP (E : Nat → Nat) (st : FFX.CacheState)
    (tweakLen : Nat) : FFX.CacheState :=
  if st.tweakLen = (tweakLen : Int) then st else ⟨(tweakLen : Int), E tweakLen⟩

/-- Stateful `FFX.PermuteInPlace` (part_000 lines 103-135) with the
cache explicit.  `M encP tweak i b` is the opaque raw CBC-MAC round
output, which depends on the cached encrypted header `encP`, the tweak
bytes (via the Q buffer) and the half value. -/
def FFX.PermuteStateful (E : Nat → Nat) (M : Nat → List Nat → Nat → Nat → Nat)
    (lengthBits : Nat) (st : FFX.CacheState) (tweak : List Nat) (x : Nat) :
    FFX.CacheState × Nat :=
  let st1 := FFX.calculateEncryptedP E st tweak.length
  (st1, FFX.PermuteInPlace (fun i b => M st1.encryptedP tweak i b) lengthBits x)

/-! ## The Q working buffer (part_000 lines 113-120) and the CBC-MAC
block loop (part_000 lines 155-161) -/

/-- Number of zero bytes the padding loop
`for len(q)%16 != 7 { q = append(q, 0) }` appends: the least `z` with
`(len + z) % 16 = 7`, in closed form. -/
def FFX.qZeroPad (tweakLen : Nat) : Nat := (23 - tweakLen % 16) % 16

/-- The Q buffer built at the start of each `FFX.PermuteInPlace` call
(part_000 lines 113-120): tweak bytes, zero padding until the length is
`7 (mod 16)`, a `0x01` marker byte, then 8 zero bytes (later overwritten
with B each round). -/
def FFX.buildQ (tweak : List Nat) : List Nat :=
  tweak ++ List.replicate (FFX.qZeroPad tweak.length) 0 ++ 1 :: List.replicate 8 0

/-- The slicing performed by the CBC-MAC loop in `FFX.RoundFunc`
(part_000 lines 155-161): repeatedly take `remainingQ[:16]` and advance
by 16, `k` times, requiring every slice to be in bounds (`none`
models the out-of-bounds panic Go would raise on a short slice). -/
def FFX.qBlocks : Nat → List Nat → Option (List (List Nat))
  | 0, l => if l.isEmpty then some [] else none
  | k + 1, l =>
    if 16 ≤ l.length then
      Option.map (fun cs => l.take 16 :: cs) (FFX.qBlocks k (l.drop 16))
    else none

/-! ## SHAKE128 (external primitive, embedded concretely for the README
example).  Go `crypto/sha3` SHAKE128: a Keccak[256] sponge with a
168-byte rate.  Validated against the standard test vector: the first
32 output bytes for the empty message are
7f9c2ba4e88f827d616045507605853ed73b8093f6efbc88eb1a6eacfa66ef26. -/

/-- 64-bit rotate left. -/
def rotl64 (x n : Nat) : Nat :=
  ((x <<< n) ||| (x >>> (64 - n))) % (2 ^ 64)

/-- Keccak-f[1600] state: 25 lanes of 64 bits; lane (x, y) is field
aXY, flat index x + 5 y. -/
structure KecState where
  a00 : Nat
  a10 : Nat
  a20 : Nat
  a30 : Nat
  a40 : Nat
  a01 : Nat
  a11 : Nat
  a21 : Nat
  a31 : Nat
  a41 : Nat
  a02 : Nat
  a12 : Nat
  a22 : Nat
  a32 : Nat
  a42 : Nat
  a03 : Nat
  a13 : Nat
  a23 : Nat
  a33 : Nat
  a43 : Nat
  a04 : Nat
  a14 : Nat
  a24 : Nat
  a34 : Nat
  a44 : Nat

/-- All-ones 64-bit mask, used for bitwise complement inside chi. -/
def mask64 : Nat := 2 ^ 64 - 1

/-- One Keccak-f[1600] round: theta, rho, pi, chi, iota. -/
def kecRound (s : KecState) (rc : Nat) : KecState :=
  let c0 := s.a00 ^^^ s.a01 ^^^ s.a02 ^^^ s.a03 ^^^ s.a04
  let c1 := s.a10 ^^^ s.a11 ^^^ s.a12 ^^^ s.a13 ^^^ s.a14
  let c2 := s.a20 ^^^ s.a21 ^^^ s.a22 ^^^ s.a23 ^^^ s.a24
  let c3 := s.a30 ^^^ s.a31 ^^^ s.a32 ^^^ s.a33 ^^^ s.a34
  let c4 := s.a40 ^^^ s.a41 ^^^ s.a42 ^^^ s.a43 ^^^ s.a44
  let d0 := c4 ^^^ rotl64 c1 1
  let d1 := c0 ^^^ rotl64 c2 1
  let d2 := c1 ^^^ rotl64 c3 1
  let d3 := c2 ^^^ rotl64 c4 1
  let d4 := c3 ^^^ rotl64 c0 1
  let t00 := s.a00 ^^^ d0
  let t10 := s.a10 ^^^ d1
  let t20 := s.a20 ^^^ d2
  let t30 := s.a30 ^^^ d3
  let t40 := s.a40 ^^^ d4
  let t01 := s.a01 ^^^ d0
  let t11 := s.a11 ^^^ d1
  let t21 := s.a21 ^^^ d2
  let t31 := s.a31 ^^^ d3
  let t41 := s.a41 ^^^ d4
  let t02 := s.a02 ^^^ d0
  let t12 := s.a12 ^^^ d1
  let t22 := s.a22 ^^^ d2
  let t32 := s.a32 ^^^ d3
  let t42 := s.a42 ^^^ d4
  let t03 := s.a03 ^^^ d0
  let t13 := s.a13 ^^^ d1
  let t23 := s.a23 ^^^ d2
  let t33 := s.a33 ^^^ d3
  let t43 := s.a43 ^^^ d4
  let t04 := s.a04 ^^^ d0
  let t14 := s.a14 ^^^ d1
  let t24 := s.a24 ^^^ d2
  let t34 := s.a34 ^^^ d3
  let t44 := s.a44 ^^^ d4
  let b00 := t00
  let b01 := rotl64 t30 28
  let b02 := rotl64 t10 1
  let b03 := rotl64 t40 27
  let b04 := rotl64 t20 62
  let b10 := rotl64 t11 44
  let b11 := rotl64 t41 20
  let b12 := rotl64 t21 6
  let b13 := rotl64 t01 36
  let b14 := rotl64 t31 55
  let b20 := rotl64 t22 43
  let b21 := rotl64 t02 3
  let b22 := rotl64 t32 25
  let b23 := rotl64 t12 10
  let b24 := rotl64 t42 39
  let b30 := rotl64 t33 21
  let b31 := rotl64 t13 45
  let b32 := rotl64 t43 8
  let b33 := rotl64 t23 15
  let b34 := rotl64 t03 41
  let b40 := rotl64 t44 14
  let b41 := rotl64 t24 61
  let b42 := rotl64 t04 18
  let b43 := rotl64 t34 56
  let b44 := rotl64 t14 2
  { a00 := (b00 ^^^ ((b10 ^^^ mask64) &&& b20)) ^^^ rc
    a10 := b10 ^^^ ((b20 ^^^ mask64) &&& b30)
    a20 := b20 ^^^ ((b30 ^^^ mask64) &&& b40)
    a30 := b30 ^^^ ((b40 ^^^ mask64) &&& b00)
    a40 := b40 ^^^ ((b00 ^^^ mask64) &&& b10)
    a01 := b01 ^^^ ((b11 ^^^ mask64) &&& b21)
    a11 := b11 ^^^ ((b21 ^^^ mask64) &&& b31)
    a21 := b21 ^^^ ((b31 ^^^ mask64) &&& b41)
    a31 := b31 ^^^ ((b41 ^^^ mask64) &&& b01)
    a41 := b41 ^^^ ((b01 ^^^ mask64) &&& b11)
    a02 := b02 ^^^ ((b12 ^^^ mask64) &&& b22)
    a12 := b12 ^^^ ((b22 ^^^ mask64) &&& b32)
    a22 := b22 ^^^ ((b32 ^^^ mask64) &&& b42)
    a32 := b32 ^^^ ((b42 ^^^ mask64) &&& b02)
    a42 := b42 ^^^ ((b02 ^^^ mask64) &&& b12)
    a03 := b03 ^^^ ((b13 ^^^ mask64) &&& b23)
    a13 := b13 ^^^ ((b23 ^^^ mask64) &&& b33)
    a23 := b23 ^^^ ((b33 ^^^ mask64) &&& b43)
    a33 := b33 ^^^ ((b43 ^^^ mask64) &&& b03)
    a43 := b43 ^^^ ((b03 ^^^ mask64) &&& b13)
    a04 := b04 ^^^ ((b14 ^^^ mask64) &&& b24)
    a14 := b14 ^^^ ((b24 ^^^ mask64) &&& b34)
    a24 := b24 ^^^ ((b34 ^^^ mask64) &&& b44)
    a34 := b34 ^^^ ((b44 ^^^ mask64) &&& b04)
    a44 := b44 ^^^ ((b04 ^^^ mask64) &&& b14) }

/-- The 24 Keccak-f[1600] round constants. -/
def kecRCs : List Nat :=
  [0x0000000000000001, 0x0000000000008082, 0x800000000000808a,
   0x8000000080008000, 0x000000000000808b, 0x0000000080000001,
   0x8000000080008081, 0x8000000000008009, 0x000000000000008a,
   0x0000000000000088, 0x0000000080008009, 0x000000008000000a,
   0x000000008000808b, 0x800000000000008b, 0x8000000000008089,
   0x8000000000008003, 0x8000000000008002, 0x8000000000000080,
   0x000000000000800a, 0x800000008000000a, 0x8000000080008081,
   0x8000000000008080, 0x0000000080000001, 0x8000000080008008]

/-- Keccak-f[1600]: 24 rounds. -/
def keccakF (s : KecState) : KecState := List.foldl kecRound s kecRCs

/-- Little-endian byte list to a lane value (first byte least
significant). -/
def leLane (bs : List Nat) : Nat := List.foldr (fun b acc => b + 256 * acc) 0 bs

/-- Split a byte list into `k` lanes of 8 bytes each, little-endian. -/
def toLanes : Nat → List Nat → List Nat
  | 0, _ => []
  | k + 1, bs => leLane (bs.take 8) :: toLanes k (bs.drop 8)

/-- Keccak state holding the 21 SHAKE128 rate lanes (capacity lanes
21-24 are zero). -/
def stateOfLanes (l : List Nat) : KecState :=
  ⟨l.getD 0 0, l.getD 1 0, l.getD 2 0, l.getD 3 0, l.getD 4 0,
   l.getD 5 0, l.getD 6 0, l.getD 7 0, l.getD 8 0, l.getD 9 0,
   l.getD 10 0, l.getD 11 0, l.getD 12 0, l.getD 13 0, l.getD 14 0,
   l.getD 15 0, l.getD 16 0, l.getD 17 0, l.getD 18 0, l.getD 19 0,
   l.getD 20 0, 0, 0, 0, 0⟩

/-- SHAKE128 padding of a message shorter than 167 bytes to one
168-byte rate block: domain suffix 0x1F, zero fill, final bit 0x80.
Every message the repository absorbs for the README example is 30 bytes
long, well within one block. -/
def shakePad (msg : List Nat) : List Nat :=
  msg ++ 0x1f :: List.replicate (168 - msg.length - 2) 0 ++ [0x80]

/-- Absorb a single-block SHAKE128 message into the all-zero sponge and
apply Keccak-f: the state output bytes are squeezed from. -/
def shakeState (msg : List Nat) : KecState :=
  keccakF (stateOfLanes (toLanes 21 (shakePad msg)))

/-- The 8 bytes of a lane, little-endian. -/
def laneBytes (v : Nat) : List Nat :=
  [v % 256, v / 2 ^ 8 % 256, v / 2 ^ 16 % 256, v / 2 ^ 24 % 256,
   v / 2 ^ 32 % 256, v / 2 ^ 40 % 256, v / 2 ^ 48 % 256, v / 2 ^ 56 % 256]

/-- First `n` output bytes of SHAKE128 for a single-block message
(the repository reads at most a few bytes, well within one squeeze
block of 168 bytes; 32 bytes of state prefix suffice here). -/
def shakeBytes (n : Nat) (msg : List Nat) : List Nat :=
  let s := shakeState msg
  (laneBytes s.a00 ++ laneBytes s.a10 ++ laneBytes s.a20 ++ laneBytes s.a30).take n

/-- 8-byte little-endian encoding, as Go `binary.LittleEndian.PutUint64`. -/
def le64 (v : Nat) : List Nat :=
  [v % 256, v / 2 ^ 8 % 256, v / 2 ^ 16 % 256, v / 2 ^ 24 % 256,
   v / 2 ^ 32 % 256, v / 2 ^ 40 % 256, v / 2 ^ 48 % 256, v / 2 ^ 56 % 256]

/-- Big-endian zero-padded encoding into `k` bytes, as Go
`big.Int.FillBytes` on a `k`-byte slice. -/
def beFill : Nat → Nat → List Nat
  | 0, _ => []
  | k + 1, b => beFill k (b / 256) ++ [b % 256]

/-- Big-endian byte list to value, as Go `big.Int.SetBytes`. -/
def beBytes (bs : List Nat) : Nat := List.foldl (fun acc b => acc * 256 + b) 0 bs

/-- The raw round-function squeeze of `FeistelSHAKE128.RoundFunc`
(README lines 105-140): absorb key length, key, output width, round
index, the tweak (with its length) when non-empty, and the half value
B big-endian padded to the input byte width; squeeze `outLenBytes`
bytes, read big-endian.  The final masking of the top byte (README
lines 141-145) equals `% 2 ^ outLenBits` of this value and is applied
by `FeistelSHAKE128.RoundFuncMasked`. -/
def FeistelSHAKE128.shakeRaw (key tweak : List Nat) (lengthBits round b : Nat) : Nat :=
  let inLenBits := if round % 2 = 0 then lengthBits / 2 else lengthBits - lengthBits / 2
  let outLenBits := if round % 2 = 0 then lengthBits - lengthBits / 2 else lengthBits / 2
  let inLenBytes := (inLenBits + 7) / 8
  let outLenBytes := (outLenBits + 7) / 8
  let msg := le64 key.length ++ key ++ le64 outLenBits ++ le64 round ++
    (if 0 < tweak.length then le64 tweak.length ++ tweak else []) ++
    beFill inLenBytes b
  beBytes (shakeBytes outLenBytes msg)

/-- The bytes of the key "mykey" from the README example. -/
def exampleKey : List Nat := [0x6d, 0x79, 0x6b, 0x65, 0x79]

/-- The README example (README lines 15-28, test
`ExampleArbitraryN_PermuteInt` in part_004 lines 9-21):
`NewNInt([]byte("mykey"), 5)` followed by `PermuteInt`.  `NewNInt`
calls `NewN` (part_002 lines 21-23), which derives `lengthBits = 3` and
therefore selects the SHAKE engine; the FFX raw round primitive is
never consulted and is passed as a dummy. -/
def examplePermuteInt (x : Nat) : Option Nat :=
  NewN.permute (fun _ _ => 0)
    (FeistelSHAKE128.shakeRaw exampleKey [] (NewN.lengthBits 5)) 5 x

/-! # Theorems

First a block of engine-generic lemmas: a Feistel loop is injective for
any round function, and the half widths are preserved round by round
when the round output is truncated to the current width. -/

theorem feistelLoop_inj (rf : Nat → Nat → Nat) :
    ∀ (n i a1 b1 a2 b2 : Nat),
      feistelLoop rf i n (a1, b1) = feistelLoop rf i n (a2, b2) →
      a1 = a2 ∧ b1 = b2 := by
  intro n
  induction n with
  | zero =>
    intro i a1 b1 a2 b2 h
    simpa [feistelLoop, Prod.ext_iff] using h
  | succ n ih =>
    intro i a1 b1 a2 b2 h
    obtain ⟨hb, hx⟩ := ih (i + 1) b1 (a1 ^^^ rf i b1) b2 (a2 ^^^ rf i b2)
      (by simpa [feistelLoop] using h)
    subst hb
    refine ⟨?_, rfl⟩
    have h3 := congrArg (fun z => z ^^^ rf i b1) hx
    simpa [Nat.xor_assoc] using h3

theorem feistelLoop_bounds (L : Nat) (w : Nat → Nat) (rf : Nat → Nat → Nat)
    (hw : ∀ i, w (i + 1) = L - w i) (hwle : ∀ i, w i ≤ L)
    (hrf : ∀ i b, rf i b < 2 ^ w i) :
    ∀ (n i a b : Nat), a < 2 ^ w i → b < 2 ^ (L - w i) →
      (feistelLoop rf i n (a, b)).1 < 2 ^ w (i + n) ∧
      (feistelLoop rf i n (a, b)).2 < 2 ^ (L - w (i + n)) := by
  intro n
  induction n with
  | zero =>
    intro i a b ha hb
    exact ⟨by simpa [feistelLoop] using ha, by simpa [feistelLoop] using hb⟩
  | succ n ih =>
    intro i a b ha hb
    have hb1 : b < 2 ^ w (i + 1) := by rw [hw i]; exact hb
    have hx1 : a ^^^ rf i b < 2 ^ (L - w (i + 1)) := by
      rw [hw i, Nat.sub_sub_self (hwle i)]
      exact Nat.xor_lt_two_pow ha (hrf i b)
    have h2 := ih (i + 1) b (a ^^^ rf i b) hb1 hx1
    have e : i + 1 + n = i + (n + 1) := by omega
    rw [e] at h2
    exact ⟨by simpa [feistelLoop] using h2.1, by simpa [feistelLoop] using h2.2⟩

theorem feistelPermute_parts (L k : Nat) (w : Nat → Nat) (rf : Nat → Nat → Nat)
    (hkL : k ≤ L) (hw : ∀ i, w (i + 1) = L - w i) (hwle : ∀ i, w i ≤ L)
    (hw0 : w 0 = L - k) (hrf : ∀ i b, rf i b < 2 ^ w i)
    (r : Nat) (hr : w r = w 0) (x : Nat) (hx : x < 2 ^ L) :
    (feistelLoop rf 0 r (x >>> k, x &&& (2 ^ k - 1))).1 < 2 ^ (L - k) ∧
    (feistelLoop rf 0 r (x >>> k, x &&& (2 ^ k - 1))).2 < 2 ^ k := by
  have hb0 : x &&& (2 ^ k - 1) < 2 ^ (L - w 0) := by
    rw [hw0, Nat.sub_sub_self hkL, Nat.and_pow_two_sub_one_eq_mod]
    exact Nat.mod_lt _ (Nat.two_pow_pos _)
  have ha0 : x >>> k < 2 ^ w 0 := by
    rw [hw0, Nat.shiftRight_eq_div_pow]
    rw [Nat.div_lt_iff_lt_mul (Nat.two_pow_pos k)]
    calc x < 2 ^ L := hx
    _ = 2 ^ (L - k) * 2 ^ k := by rw [← Nat.pow_add]; congr 1; omega
  obtain ⟨h1, h2⟩ :=
    feistelLoop_bounds L w rf hw hwle hrf r 0 (x >>> k) (x &&& (2 ^ k - 1)) ha0 hb0
  rw [Nat.zero_add, hr, hw0] at h1 h2
  rw [Nat.sub_sub_self hkL] at h2
  exact ⟨h1, h2⟩

theorem feistelPermute_lt (L k : Nat) (w : Nat → Nat) (rf : Nat → Nat → Nat)
    (hkL : k ≤ L) (hw : ∀ i, w (i + 1) = L - w i) (hwle : ∀ i, w i ≤ L)
    (hw0 : w 0 = L - k) (hrf : ∀ i b, rf i b < 2 ^ w i)
    (r : Nat) (hr : w r = w 0) (x : Nat) (hx : x < 2 ^ L) :
    feistelPermute rf k r x < 2 ^ L := by
  obtain ⟨h1, h2⟩ := feistelPermute_parts L k w rf hkL hw hwle hw0 hrf r hr x hx
  simp only [feistelPermute]
  rw [Nat.shiftLeft_eq, Nat.mul_comm]
  rw [← Nat.mul_add_lt_is_or h2 _]
  have h3 : 2 ^ k * (feistelLoop rf 0 r (x >>> k, x &&& (2 ^ k - 1))).1 +
      (feistelLoop rf 0 r (x >>> k, x &&& (2 ^ k - 1))).2 <
      2 ^ k * ((feistelLoop rf 0 r (x >>> k, x &&& (2 ^ k - 1))).1 + 1) := by
    rw [Nat.mul_succ]; omega
  have h4 : 2 ^ k * ((feistelLoop rf 0 r (x >>> k, x &&& (2 ^ k - 1))).1 + 1) ≤
      2 ^ k * 2 ^ (L - k) := Nat.mul_le_mul_left _ h1
  have h5 : 2 ^ k * 2 ^ (L - k) = 2 ^ L := by rw [← Nat.pow_add]; congr 1; omega
  omega

theorem feistelPermute_inj (L k : Nat) (w : Nat → Nat) (rf : Nat → Nat → Nat)
    (hkL : k ≤ L) (hw : ∀ i, w (i + 1) = L - w i) (hwle : ∀ i, w i ≤ L)
    (hw0 : w 0 = L - k) (hrf : ∀ i b, rf i b < 2 ^ w i)
    (r : Nat) (hr : w r = w 0) (x y : Nat) (hx : x < 2 ^ L) (hy : y < 2 ^ L)
    (heq : feistelPermute rf k r x = feistelPermute rf k r y) : x = y := by
  obtain ⟨hx1, hx2⟩ := feistelPermute_parts L k w rf hkL hw hwle hw0 hrf r hr x hx
  obtain ⟨hy1, hy2⟩ := feistelPermute_parts L k w rf hkL hw hwle hw0 hrf r hr y hy
  rw [Nat.and_pow_two_sub_one_eq_mod] at hx1 hx2 hy1 hy2
  simp only [feistelPermute, Nat.and_pow_two_sub_one_eq_mod] at heq
  rw [Nat.shiftLeft_eq, Nat.shiftLeft_eq,
    Nat.mul_comm _ (2 ^ k), Nat.mul_comm _ (2 ^ k),
    ← Nat.mul_add_lt_is_or hx2 _, ← Nat.mul_add_lt_is_or hy2 _] at heq
  have hb : (feistelLoop rf 0 r (x >>> k, x % 2 ^ k)).2 =
      (feistelLoop rf 0 r (y >>> k, y % 2 ^ k)).2 := by
    have h1 := congrArg (fun z => z % 2 ^ k) heq
    simpa [Nat.mul_add_mod, Nat.mod_eq_of_lt hx2, Nat.mod_eq_of_lt hy2] using h1
  have ha : (feistelLoop rf 0 r (x >>> k, x % 2 ^ k)).1 =
      (feistelLoop rf 0 r (y >>> k, y % 2 ^ k)).1 := by
    rw [hb] at heq
    have h2 := Nat.add_right_cancel heq
    exact Nat.eq_of_mul_eq_mul_left (Nat.two_pow_pos k) h2
  have hPQ : feistelLoop rf 0 r (x >>> k, x % 2 ^ k) =
      feistelLoop rf 0 r (y >>> k, y % 2 ^ k) := Prod.ext_iff.mpr ⟨ha, hb⟩
  obtain ⟨hA, hB⟩ := feistelLoop_inj rf r 0 _ _ _ _ hPQ
  rw [Nat.shiftRight_eq_div_pow, Nat.shiftRight_eq_div_pow] at hA
  calc x = 2 ^ k * (x / 2 ^ k) + x % 2 ^ k := (Nat.div_add_mod x (2 ^ k)).symm
  _ = 2 ^ k * (y / 2 ^ k) + y % 2 ^ k := by rw [hA, hB]
  _ = y := Nat.div_add_mod y (2 ^ k)

/-! ## Width-schedule facts of the two engines -/

theorem FFX.bitsToKeep_succ (L : Nat) : ∀ i,
    FFX.bitsToKeep L (i + 1) = L - FFX.bitsToKeep L i := by
  intro i
  rcases Nat.mod_two_eq_zero_or_one i with h | h
  · have h1 : (i + 1) % 2 = 1 := by omega
    simp [FFX.bitsToKeep, h, h1]
  · have h1 : (i + 1) % 2 = 0 := by omega
    simp [FFX.bitsToKeep, h, h1]
    omega

theorem FFX.bitsToKeep_le (L : Nat) : ∀ i, FFX.bitsToKeep L i ≤ L := by
  intro i
  unfold FFX.bitsToKeep
  split <;> omega

theorem FFX.bitsToKeep_zero (L : Nat) : FFX.bitsToKeep L 0 = L / 2 := by
  simp [FFX.bitsToKeep]

theorem FFX.ffxRounds_even (L : Nat) : FFX.rounds L % 2 = 0 := by
  unfold FFX.rounds
  split_ifs <;> rfl

theorem FFX.bitsToKeep_of_even (L r : Nat) (h : r % 2 = 0) :
    FFX.bitsToKeep L r = FFX.bitsToKeep L 0 := by
  simp [FFX.bitsToKeep, h]

theorem FFX.RoundFunc_lt (F : Nat → Nat → Nat) (L : Nat) : ∀ i b,
    FFX.RoundFunc F L i b < 2 ^ FFX.bitsToKeep L i := by
  intro i b
  exact Nat.mod_lt _ (Nat.two_pow_pos _)

theorem FeistelSHAKE128.outLenBits_succ (L : Nat) : ∀ i,
    FeistelSHAKE128.outLenBits L (i + 1) = L - FeistelSHAKE128.outLenBits L i := by
  intro i
  rcases Nat.mod_two_eq_zero_or_one i with h | h
  · have h1 : (i + 1) % 2 = 1 := by omega
    simp [FeistelSHAKE128.outLenBits, h, h1]
    omega
  · have h1 : (i + 1) % 2 = 0 := by omega
    simp [FeistelSHAKE128.outLenBits, h, h1]

theorem FeistelSHAKE128.outLenBits_le (L : Nat) : ∀ i,
    FeistelSHAKE128.outLenBits L i ≤ L := by
  intro i
  unfold FeistelSHAKE128.outLenBits
  split <;> omega

theorem FeistelSHAKE128.outLenBits_zero (L : Nat) :
    FeistelSHAKE128.outLenBits L 0 = L - L / 2 := by
  simp [FeistelSHAKE128.outLenBits]

theorem FeistelSHAKE128.shakeRounds_even (L : Nat) : FeistelSHAKE128.rounds L % 2 = 0 := by
  unfold FeistelSHAKE128.rounds
  split_ifs <;> rfl

theorem FeistelSHAKE128.outLenBits_of_even (L r : Nat) (h : r % 2 = 0) :
    FeistelSHAKE128.outLenBits L r = FeistelSHAKE128.outLenBits L 0 := by
  simp [FeistelSHAKE128.outLenBits, h]

theorem FeistelSHAKE128.RoundFuncMasked_lt (G : Nat → Nat → Nat) (L : Nat) : ∀ i b,
    FeistelSHAKE128.RoundFuncMasked G L i b < 2 ^ FeistelSHAKE128.outLenBits L i := by
  intro i b
  exact Nat.mod_lt _ (Nat.two_pow_pos _)

/-! ## The two fixed-domain engines permute their domains -/

theorem FFX.ffxPermute_lt (F : Nat → Nat → Nat) (L x : Nat) (hx : x < 2 ^ L) :
    FFX.PermuteInPlace F L x < 2 ^ L := by
  unfold FFX.PermuteInPlace
  exact feistelPermute_lt L (L - L / 2) (FFX.bitsToKeep L) (FFX.RoundFunc F L)
    (by omega) (FFX.bitsToKeep_succ L) (FFX.bitsToKeep_le L)
    (by rw [FFX.bitsToKeep_zero]; omega) (FFX.RoundFunc_lt F L)
    (FFX.rounds L) (FFX.bitsToKeep_of_even L _ (FFX.ffxRounds_even L)) x hx

theorem FFX.ffxPermute_inj (F : Nat → Nat → Nat) (L x y : Nat)
    (hx : x < 2 ^ L) (hy : y < 2 ^ L)
    (heq : FFX.PermuteInPlace F L x = FFX.PermuteInPlace F L y) : x = y := by
  unfold FFX.PermuteInPlace at heq
  exact feistelPermute_inj L (L - L / 2) (FFX.bitsToKeep L) (FFX.RoundFunc F L)
    (by omega) (FFX.bitsToKeep_succ L) (FFX.bitsToKeep_le L)
    (by rw [FFX.bitsToKeep_zero]; omega) (FFX.RoundFunc_lt F L)
    (FFX.rounds L) (FFX.bitsToKeep_of_even L _ (FFX.ffxRounds_even L)) x y hx hy heq

theorem FeistelSHAKE128.shakePermute_lt (G : Nat → Nat → Nat) (L x : Nat)
    (hx : x < 2 ^ L) : FeistelSHAKE128.PermuteInPlace G L x < 2 ^ L := by
  unfold FeistelSHAKE128.PermuteInPlace
  exact feistelPermute_lt L (L / 2) (FeistelSHAKE128.outLenBits L)
    (FeistelSHAKE128.RoundFuncMasked G L)
    (by omega) (FeistelSHAKE128.outLenBits_succ L) (FeistelSHAKE128.outLenBits_le L)
    (by rw [FeistelSHAKE128.outLenBits_zero]) (FeistelSHAKE128.RoundFuncMasked_lt G L)
    (FeistelSHAKE128.rounds L)
    (FeistelSHAKE128.outLenBits_of_even L _ (FeistelSHAKE128.shakeRounds_even L)) x hx

theorem FeistelSHAKE128.shakePermute_inj (G : Nat → Nat → Nat) (L x y : Nat)
    (hx : x < 2 ^ L) (hy : y < 2 ^ L)
    (heq : FeistelSHAKE128.PermuteInPlace G L x = FeistelSHAKE128.PermuteInPlace G L y) :
    x = y := by
  unfold FeistelSHAKE128.PermuteInPlace at heq
  exact feistelPermute_inj L (L / 2) (FeistelSHAKE128.outLenBits L)
    (FeistelSHAKE128.RoundFuncMasked G L)
    (by omega) (FeistelSHAKE128.outLenBits_succ L) (FeistelSHAKE128.outLenBits_le L)
    (by rw [FeistelSHAKE128.outLenBits_zero]) (FeistelSHAKE128.RoundFuncMasked_lt G L)
    (FeistelSHAKE128.rounds L)
    (FeistelSHAKE128.outLenBits_of_even L _ (FeistelSHAKE128.shakeRounds_even L)) x y hx hy heq

/-! ## Cycle-walking lemmas -/

theorem cycleWalk_lt (g : Nat → Nat) (n : Nat) :
    ∀ fuel x y, cycleWalk g n fuel x = some y → y < n := by
  intro fuel
  induction fuel with
  | zero =>
    intro x y h
    simp [cycleWalk] at h
  | succ fuel ih =>
    intro x y h
    simp only [cycleWalk] at h
    by_cases hlt : g x < n
    · simp only [if_pos hlt, Option.some.injEq] at h
      omega
    · rw [if_neg hlt] at h
      exact ih _ _ h

theorem cycleWalk_iter (g : Nat → Nat) (n : Nat) :
    ∀ fuel x y, cycleWalk g n fuel x = some y →
      ∃ k, 1 ≤ k ∧ k ≤ fuel ∧ y = g^[k] x ∧
        ∀ j, 1 ≤ j → j < k → n ≤ g^[j] x := by
  intro fuel
  induction fuel with
  | zero =>
    intro x y h
    simp [cycleWalk] at h
  | succ fuel ih =>
    intro x y h
    simp only [cycleWalk] at h
    by_cases hlt : g x < n
    · simp only [if_pos hlt, Option.some.injEq] at h
      refine ⟨1, Nat.le_refl 1, by omega, ?_, ?_⟩
      · simpa [Function.iterate_one] using h.symm
      · intro j h1 h2
        omega
    · rw [if_neg hlt] at h
      obtain ⟨k, hk1, hk2, hky, hint⟩ := ih (g x) y h
      refine ⟨k + 1, by omega, by omega, ?_, ?_⟩
      · rw [Function.iterate_succ_apply]
        exact hky
      · intro j hj1 hjk
        rcases Nat.eq_or_lt_of_le hj1 with h1 | h1
        · rw [← h1]
          simpa [Function.iterate_one] using Nat.not_lt.mp hlt
        · have e : g^[j] x = g^[j - 1] (g x) := by
            conv_lhs => rw [show j = (j - 1) + 1 by omega]
            rw [Function.iterate_succ_apply]
          rw [e]
          exact hint (j - 1) (by omega) (by omega)

theorem cycleWalk_of_hit (g : Nat → Nat) (n : Nat) :
    ∀ fuel x, (∃ k, 1 ≤ k ∧ k ≤ fuel ∧ g^[k] x < n) →
      ∃ y, cycleWalk g n fuel x = some y := by
  intro fuel
  induction fuel with
  | zero =>
    rintro x ⟨k, h1, h2, _⟩
    omega
  | succ fuel ih =>
    rintro x ⟨k, hk1, hk2, hk⟩
    simp only [cycleWalk]
    by_cases hlt : g x < n
    · exact ⟨g x, by rw [if_pos hlt]⟩
    · have hk1' : k ≠ 1 := by
        intro hk1e
        rw [hk1e] at hk
        simp [Function.iterate_one] at hk
        omega
      have e : g^[k] x = g^[k - 1] (g x) := by
        conv_lhs => rw [show k = (k - 1) + 1 by omega]
        rw [Function.iterate_succ_apply]
      obtain ⟨y, hy⟩ := ih (g x) ⟨k - 1, by omega, by omega, by rw [← e]; exact hk⟩
      exact ⟨y, by rw [if_neg hlt]; exact hy⟩

theorem iterate_lt (g : Nat → Nat) (M : Nat) (hg : ∀ a, a < M → g a < M) :
    ∀ k x, x < M → g^[k] x < M := by
  intro k
  induction k with
  | zero =>
    intro x hx
    simpa using hx
  | succ k ih =>
    intro x hx
    rw [Function.iterate_succ_apply']
    exact hg _ (ih x hx)

theorem iterate_cancel (g : Nat → Nat) (M : Nat) (hg : ∀ a, a < M → g a < M)
    (hinj : ∀ a, a < M → ∀ b, b < M → g a = g b → a = b) :
    ∀ k a b, a < M → b < M → g^[k] a = g^[k] b → a = b := by
  intro k
  induction k with
  | zero =>
    intro a b _ _ h
    simpa using h
  | succ k ih =>
    intro a b ha hb h
    rw [Function.iterate_succ_apply', Function.iterate_succ_apply'] at h
    exact ih a b ha hb
      (hinj _ (iterate_lt g M hg k a ha) _ (iterate_lt g M hg k b hb) h)

theorem orbit_returns (g : Nat → Nat) (M : Nat) (hg : ∀ a, a < M → g a < M)
    (hinj : ∀ a, a < M → ∀ b, b < M → g a = g b → a = b)
    (x : Nat) (hx : x < M) : ∃ p, 1 ≤ p ∧ p ≤ M ∧ g^[p] x = x := by
  have key : ∀ i j, i < j → j ≤ M → g^[i] x = g^[j] x →
      ∃ p, 1 ≤ p ∧ p ≤ M ∧ g^[p] x = x := by
    intro i j hij hjM heq
    refine ⟨j - i, by omega, by omega, ?_⟩
    have e2 : i + (j - i) = j := by omega
    have e : g^[j] x = g^[i] (g^[j - i] x) := by
      conv_lhs => rw [← e2]
      rw [Function.iterate_add_apply]
    rw [e] at heq
    exact (iterate_cancel g M hg hinj i x (g^[j - i] x) hx
      (iterate_lt g M hg _ x hx) heq).symm
  have maps : ∀ i ∈ Finset.range (M + 1), g^[i] x ∈ Finset.range M := by
    intro i _
    simpa [Finset.mem_range] using iterate_lt g M hg i x hx
  have hcard : (Finset.range M).card < (Finset.range (M + 1)).card := by simp
  obtain ⟨i, hi, j, hj, hij, hfeq⟩ :=
    Finset.exists_ne_map_eq_of_card_lt_of_maps_to hcard maps
  rw [Finset.mem_range] at hi hj
  rcases Nat.lt_or_ge i j with h | h
  · exact key i j h (by omega) hfeq
  · have hj2 : j < i := by omega
    exact key j i hj2 (by omega) hfeq.symm

theorem cycleWalk_total (g : Nat → Nat) (M n x : Nat)
    (hg : ∀ a, a < M → g a < M)
    (hinj : ∀ a, a < M → ∀ b, b < M → g a = g b → a = b)
    (hn : n ≤ M) (hx : x < n) :
    ∃ y, cycleWalk g n M x = some y := by
  obtain ⟨p, hp1, hpM, hpx⟩ := orbit_returns g M hg hinj x (by omega)
  exact cycleWalk_of_hit g n M x ⟨p, hp1, hpM, by rw [hpx]; exact hx⟩

theorem cycleWalk_inj (g : Nat → Nat) (M n : Nat)
    (hg : ∀ a, a < M → g a < M)
    (hinj : ∀ a, a < M → ∀ b, b < M → g a = g b → a = b)
    (hn : n ≤ M) :
    ∀ x1, x1 < n → ∀ x2, x2 < n → ∀ y,
      cycleWalk g n M x1 = some y → cycleWalk g n M x2 = some y → x1 = x2 := by
  have aux : ∀ x1, x1 < n → ∀ x2, x2 < n → ∀ k1 k2, 1 ≤ k1 → 1 ≤ k2 → k1 ≤ k2 →
      g^[k1] x1 = g^[k2] x2 → (∀ j, 1 ≤ j → j < k2 → n ≤ g^[j] x2) → x1 = x2 := by
    intro x1 h1 x2 h2 k1 k2 hk1 hk2 hle heq hint
    have e2 : k1 + (k2 - k1) = k2 := by omega
    have e : g^[k2] x2 = g^[k1] (g^[k2 - k1] x2) := by
      conv_lhs => rw [← e2]
      rw [Function.iterate_add_apply]
    rw [e] at heq
    have hx12 : x1 = g^[k2 - k1] x2 :=
      iterate_cancel g M hg hinj k1 x1 _ (by omega)
        (iterate_lt g M hg _ x2 (by omega)) heq
    by_cases hek : k1 = k2
    · rw [hek] at hx12
      simpa using hx12
    · have hj := hint (k2 - k1) (by omega) (by omega)
      rw [← hx12] at hj
      omega
  intro x1 h1 x2 h2 y hw1 hw2
  obtain ⟨k1, hk11, _, hy1, hint1⟩ := cycleWalk_iter g n M x1 y hw1
  obtain ⟨k2, hk21, _, hy2, hint2⟩ := cycleWalk_iter g n M x2 y hw2
  have heq : g^[k1] x1 = g^[k2] x2 := by rw [← hy1, ← hy2]
  rcases le_or_lt k1 k2 with h | h
  · exact aux x1 h1 x2 h2 k1 k2 hk11 hk21 h heq hint2
  · exact (aux x2 h2 x1 h1 k2 k1 hk21 hk11 (by omega) heq.symm hint1).symm

/-! ## Domain derivation in NewN -/

theorem bitLenAux_zero : ∀ fuel, bitLenAux fuel 0 = 0 := by
  intro fuel
  cases fuel <;> rfl

theorem bitLenAux_log2 : ∀ fuel m, m ≤ fuel →
    bitLenAux fuel m = if m = 0 then 0 else Nat.log2 m + 1 := by
  intro fuel
  induction fuel with
  | zero =>
    intro m hm
    have h0 : m = 0 := by omega
    subst h0
    rfl
  | succ fuel ih =>
    intro m hm
    by_cases h0 : m = 0
    · subst h0
      rfl
    · rw [if_neg h0]
      by_cases h1 : m = 1
      · subst h1
        have e1 : bitLenAux (fuel + 1) 1 = bitLenAux fuel 0 + 1 := by
          simp [bitLenAux]
        rw [e1, bitLenAux_zero]
        have e2 : Nat.log2 1 = 0 := by
          rw [Nat.log2, if_neg (by omega)]
        rw [e2]
      · have hrec : bitLenAux (fuel + 1) m = bitLenAux fuel (m / 2) + 1 := by
          simp [bitLenAux, h0]
        rw [hrec, ih (m / 2) (by omega), if_neg (by omega)]
        conv_rhs => rw [Nat.log2]
        rw [if_pos (by omega)]

theorem bitLen_log2 (m : Nat) :
    bitLen m = if m = 0 then 0 else Nat.log2 m + 1 :=
  bitLenAux_log2 m m (Nat.le_refl m)

theorem NewN.lengthBits_eq_log (n : Nat) (h3 : 3 ≤ n) :
    NewN.lengthBits n = Nat.log2 (n - 1) + 1 := by
  have hm : n - 1 ≠ 0 := by omega
  have h1 : 1 ≤ Nat.log2 (n - 1) := by
    rw [Nat.le_log2 hm]
    omega
  have hbl : bitLen (n - 1) = Nat.log2 (n - 1) + 1 := by
    rw [bitLen_log2, if_neg hm]
  simp only [NewN.lengthBits, hbl]
  rw [if_neg (by omega)]

theorem NewN.le_two_pow (n : Nat) : n ≤ 2 ^ NewN.lengthBits n := by
  rcases Nat.lt_or_ge n 3 with h | h
  · have h012 : n = 0 ∨ n = 1 ∨ n = 2 := by omega
    rcases h012 with rfl | rfl | rfl <;> decide
  · rw [NewN.lengthBits_eq_log n h]
    have h2 := Nat.lt_log2_self (n := n - 1)
    omega

/-- C1: for every key (any raw round primitives `F`, `G`) and every
`N ≥ 1`, the range adapter built by `NewN` maps every input in `[0, N)`
to a result in `[0, N)` (the cycle walk finishes within `2 ^ lengthBits`
steps), and no two distinct inputs in `[0, N)` produce the same
output. -/
theorem claim1_range_adapter_bijection (F G : Nat → Nat → Nat) (n : Nat)
    (hn : 1 ≤ n) :
    (∀ x, x < n → ∃ y, y < n ∧ NewN.permute F G n x = some y) ∧
    (∀ x1, x1 < n → ∀ x2, x2 < n → ∀ y,
      NewN.permute F G n x1 = some y → NewN.permute F G n x2 = some y →
      x1 = x2) := by
  have hperm : ∀ x, NewN.permute F G n x =
      ArbitraryN.PermuteInPlace
        (if NewN.usesFFX n then FFX.PermuteInPlace F (NewN.lengthBits n)
         else FeistelSHAKE128.PermuteInPlace G (NewN.lengthBits n))
        n (2 ^ NewN.lengthBits n) x := fun _ => rfl
  set L := NewN.lengthBits n with hLdef
  set g := (if NewN.usesFFX n then FFX.PermuteInPlace F L
            else FeistelSHAKE128.PermuteInPlace G L) with hgdef
  have hmaps : ∀ a, a < 2 ^ L → g a < 2 ^ L := by
    rw [hgdef]
    split
    · exact fun a ha => FFX.ffxPermute_lt F L a ha
    · exact fun a ha => FeistelSHAKE128.shakePermute_lt G L a ha
  have hinj : ∀ a, a < 2 ^ L → ∀ b, b < 2 ^ L → g a = g b → a = b := by
    rw [hgdef]
    split
    · exact fun a ha b hb h => FFX.ffxPermute_inj F L a b ha hb h
    · exact fun a ha b hb h => FeistelSHAKE128.shakePermute_inj G L a b ha hb h
  have hn2 : n ≤ 2 ^ L := NewN.le_two_pow n
  constructor
  · intro x hx
    obtain ⟨y, hy⟩ := cycleWalk_total g (2 ^ L) n x hmaps hinj hn2 hx
    refine ⟨y, cycleWalk_lt g n (2 ^ L) x y hy, ?_⟩
    rw [hperm x]
    unfold ArbitraryN.PermuteInPlace
    rw [if_neg (by omega)]
    exact hy
  · intro x1 h1 x2 h2 y hw1 hw2
    rw [hperm x1] at hw1
    rw [hperm x2] at hw2
    unfold ArbitraryN.PermuteInPlace at hw1 hw2
    rw [if_neg (by omega)] at hw1
    rw [if_neg (by omega)] at hw2
    exact cycleWalk_inj g (2 ^ L) n hmaps hinj hn2 x1 h1 x2 h2 y hw1 hw2

theorem claim1_witness :
    ∃ y, y < 5 ∧ NewN.permute (fun _ _ => 0) (fun _ _ => 0) 5 3 = some y :=
  (claim1_range_adapter_bijection (fun _ _ => 0) (fun _ _ => 0) 5 (by decide)).1
    3 (by decide)

/-- C2: each fixed-domain engine is a bijection of `[0, 2^lengthBits)`
for any round-function outputs: `FFX.PermuteInPlace` for `lengthBits` in
`[8, 128]` and `FeistelSHAKE128.PermuteInPlace` for `lengthBits ≥ 2`
map the interval into itself injectively. -/
theorem claim2_fixed_domain_bijection (F G : Nat → Nat → Nat) (lengthBits : Nat) :
    (8 ≤ lengthBits → lengthBits ≤ 128 →
      (∀ x, x < 2 ^ lengthBits →
        FFX.PermuteInPlace F lengthBits x < 2 ^ lengthBits) ∧
      (∀ x, x < 2 ^ lengthBits → ∀ y, y < 2 ^ lengthBits →
        FFX.PermuteInPlace F lengthBits x = FFX.PermuteInPlace F lengthBits y →
        x = y)) ∧
    (2 ≤ lengthBits →
      (∀ x, x < 2 ^ lengthBits →
        FeistelSHAKE128.PermuteInPlace G lengthBits x < 2 ^ lengthBits) ∧
      (∀ x, x < 2 ^ lengthBits → ∀ y, y < 2 ^ lengthBits →
        FeistelSHAKE128.PermuteInPlace G lengthBits x =
          FeistelSHAKE128.PermuteInPlace G lengthBits y → x = y)) := by
  refine ⟨fun _ _ => ⟨?_, ?_⟩, fun _ => ⟨?_, ?_⟩⟩
  · exact fun x hx => FFX.ffxPermute_lt F lengthBits x hx
  · exact fun x hx y hy h => FFX.ffxPermute_inj F lengthBits x y hx hy h
  · exact fun x hx => FeistelSHAKE128.shakePermute_lt G lengthBits x hx
  · exact fun x hx y hy h => FeistelSHAKE128.shakePermute_inj G lengthBits x y hx hy h

theorem claim2_witness :
    FFX.PermuteInPlace (fun _ _ => 0) 8 5 < 2 ^ 8 ∧
    FeistelSHAKE128.PermuteInPlace (fun _ _ => 0) 2 3 < 2 ^ 2 :=
  ⟨((claim2_fixed_domain_bijection (fun _ _ => 0) (fun _ _ => 0) 8).1
      (by decide) (by decide)).1 5 (by decide),
   ((claim2_fixed_domain_bijection (fun _ _ => 0) (fun _ _ => 0) 2).2
      (by decide)).1 3 (by decide)⟩

/-- C3: when the underlying fixed-domain map is a bijection of
`[0, 2^lengthBits)` and `N ≤ 2^lengthBits`, the cycle-walking loop of
`ArbitraryN.PermuteInPlace` terminates for every input in `[0, N)`:
within `2 ^ lengthBits` iterated applications it reaches a value
`< N`. -/
theorem claim3_cycle_walk_terminates (g : Nat → Nat) (lengthBits n x : Nat)
    (hg : ∀ a, a < 2 ^ lengthBits → g a < 2 ^ lengthBits)
    (hinj : ∀ a, a < 2 ^ lengthBits → ∀ b, b < 2 ^ lengthBits → g a = g b → a = b)
    (hn : n ≤ 2 ^ lengthBits) (hx : x < n) :
    ∃ y, cycleWalk g n (2 ^ lengthBits) x = some y :=
  cycleWalk_total g (2 ^ lengthBits) n x hg hinj hn hx

theorem claim3_witness : ∃ y, cycleWalk (fun a => a) 2 (2 ^ 2) 1 = some y :=
  claim3_cycle_walk_terminates (fun a => a) 2 2 1
    (fun _ ha => ha) (fun _ _ _ _ h => h) (by decide) (by decide)

/-- Unfolding equation of the fallible Feistel loop. -/
theorem feistelLoopChecked_succ (rf : Nat → Nat → Option Nat) (i n : Nat)
    (ab : Nat × Nat) :
    feistelLoopChecked rf i (n + 1) ab =
      Option.bind (rf i ab.2)
        (fun f => feistelLoopChecked rf (i + 1) n (ab.2, ab.1 ^^^ f)) := rfl

/-- A round that returns a value steps the fallible loop forward. -/
theorem feistelLoopChecked_some (rf : Nat → Nat → Option Nat) (i n : Nat)
    (ab : Nat × Nat) (f : Nat) (h : rf i ab.2 = some f) :
    feistelLoopChecked rf i (n + 1) ab =
      feistelLoopChecked rf (i + 1) n (ab.2, ab.1 ^^^ f) := by
  rw [feistelLoopChecked_succ, h, Option.some_bind]

/-- A round that panics aborts the fallible loop. -/
theorem feistelLoopChecked_none (rf : Nat → Nat → Option Nat) (i n : Nat)
    (ab : Nat × Nat) (h : rf i ab.2 = none) :
    feistelLoopChecked rf i (n + 1) ab = none := by
  rw [feistelLoopChecked_succ, h, Option.none_bind]

/-- On the 16-bit domain, the out-of-domain input `2 ^ 16` makes the
SHAKE engine panic in round 1, for every round primitive `G`: the
initial split gives `a = 256`, `b = 0`; round 0 reads `b = 0` (fits its
1-byte scratch) and produces `f₀ < 2 ^ 8`, so the next B half is
`256 ^^^ f₀ ≥ 256`, which round 1 cannot `FillBytes` into its 1-byte
scratch (README line 135). -/
theorem shakeFillBytes_aborts (G : Nat → Nat → Nat) :
    FeistelSHAKE128.PermuteChecked G 16 (2 ^ 16) = none := by
  have hf : G 0 0 % 2 ^ FeistelSHAKE128.outLenBits 16 0 < 2 ^ 8 := by
    rw [show FeistelSHAKE128.outLenBits 16 0 = 8 from rfl]
    exact Nat.mod_lt _ (by norm_num)
  have hb : ¬(256 ^^^ (G 0 0 % 2 ^ FeistelSHAKE128.outLenBits 16 0) < 2 ^ 8) := by
    intro hlt
    have h2 := Nat.xor_lt_two_pow hlt hf
    rw [Nat.xor_cancel_right] at h2
    exact absurd h2 (by norm_num)
  have hr0 : FeistelSHAKE128.RoundFuncChecked G 16 0
      ((((256 : Nat), (0 : Nat)) : Nat × Nat).2) =
      some (G 0 0 % 2 ^ FeistelSHAKE128.outLenBits 16 0) := by
    show FeistelSHAKE128.RoundFuncChecked G 16 0 0 = _
    unfold FeistelSHAKE128.RoundFuncChecked
    rw [if_pos (show (0 : Nat) < 2 ^ (8 * ((FeistelSHAKE128.inLenBits 16 0 + 7) / 8)) by decide)]
  have hr1 : FeistelSHAKE128.RoundFuncChecked G 16 (0 + 1)
      ((((0 : Nat), 256 ^^^ (G 0 0 % 2 ^ FeistelSHAKE128.outLenBits 16 0)) : Nat × Nat).2) =
      none := by
    show FeistelSHAKE128.RoundFuncChecked G 16 1
      (256 ^^^ (G 0 0 % 2 ^ FeistelSHAKE128.outLenBits 16 0)) = none
    unfold FeistelSHAKE128.RoundFuncChecked
    rw [show (2 ^ (8 * ((FeistelSHAKE128.inLenBits 16 1 + 7) / 8)) : Nat) = 2 ^ 8 from rfl]
    exact if_neg hb
  have hloop : feistelLoopChecked (FeistelSHAKE128.RoundFuncChecked G 16) 0
      (FeistelSHAKE128.rounds 16) (256, 0) = none := by
    rewrite [show FeistelSHAKE128.rounds 16 = 23 + 1 from rfl]
    rewrite [feistelLoopChecked_some _ 0 23 _ _ hr0]
    rewrite [show ((((256 : Nat), (0 : Nat)) : Nat × Nat).2) = (0 : Nat) from rfl,
      show ((((256 : Nat), (0 : Nat)) : Nat × Nat).1) = (256 : Nat) from rfl]
    rewrite [show (23 : Nat) = 22 + 1 from rfl]
    exact feistelLoopChecked_none _ (0 + 1) 22 _ hr1
  unfold FeistelSHAKE128.PermuteChecked
  rewrite [show ((2 ^ 16 : Nat) >>> (16 / 2)) = 256 from rfl,
    show ((2 ^ 16 : Nat) &&& (2 ^ (16 / 2) - 1)) = 0 from rfl,
    hloop]
  rfl

/-- C4 counterexample: the claim asserts every permute operation raises
InputOutOfRangeError exactly on out-of-domain inputs, including the
fixed-domain engines.  But `FFX.PermuteInPlace` (part_000 lines 103-135)
contains no range check and no panic path at all: on the out-of-domain
input `2 ^ 8 = 256` (domain `[0, 2^8)`, round primitive constantly 0 for
concreteness) it completes normally and even returns the out-of-range
value 256 — no error, no clamping. -/
theorem claim4_counterexample :
    FFX.PermuteInPlace (fun _ _ => 0) 8 (2 ^ 8) = 2 ^ 8 := by decide

/-- C4 amended: only the range adapter checks its input:
`ArbitraryN.PermuteInPlace` fails (panics with InputOutOfRangeError,
modelled `none`) exactly when the input is `≥ N`, immediately and with
no partial result; for in-domain inputs it returns a value.  The
fixed-domain engines perform no input-range check, and they do not
agree on out-of-domain inputs: `FFX.PermuteInPlace` never raises and
completes normally there (see the counterexample), while
`FeistelSHAKE128.PermuteInPlace` — modelled with its Go error path by
`FeistelSHAKE128.PermuteChecked` — aborts on the out-of-domain input
`2 ^ 16` of the 16-bit domain with a `big.Int.FillBytes` buffer panic
in round 1, for every round primitive `G`: a panic from inside the
round function, not an InputOutOfRangeError. -/
theorem claim4_amended (g : Nat → Nat) (lengthBits n x : Nat)
    (hg : ∀ a, a < 2 ^ lengthBits → g a < 2 ^ lengthBits)
    (hinj : ∀ a, a < 2 ^ lengthBits → ∀ b, b < 2 ^ lengthBits → g a = g b → a = b)
    (hn : n ≤ 2 ^ lengthBits) :
    (ArbitraryN.PermuteInPlace g n (2 ^ lengthBits) x = none ↔ n ≤ x) ∧
    (∀ G : Nat → Nat → Nat,
      FeistelSHAKE128.PermuteChecked G 16 (2 ^ 16) = none) := by
  refine ⟨?_, shakeFillBytes_aborts⟩
  unfold ArbitraryN.PermuteInPlace
  by_cases hx : n ≤ x
  · simp [hx]
  · rw [if_neg hx]
    constructor
    · intro hnone
      obtain ⟨y, hy⟩ :=
        cycleWalk_total g (2 ^ lengthBits) n x hg hinj hn (by omega)
      rw [hy] at hnone
      cases hnone
    · intro h
      omega

theorem claim4_amended_witness :
    ((ArbitraryN.PermuteInPlace (fun a => a) 2 (2 ^ 2) 3 = none ↔ 2 ≤ 3) ∧
      FeistelSHAKE128.PermuteChecked (fun _ _ => 0) 16 (2 ^ 16) = none) :=
  ⟨(claim4_amended (fun a => a) 2 2 3 (fun _ ha => ha) (fun _ _ _ _ h => h)
      (by decide)).1,
    (claim4_amended (fun a => a) 2 2 3 (fun _ ha => ha) (fun _ _ _ _ h => h)
      (by decide)).2 (fun _ _ => 0)⟩

/-- C5: determinism of the permutation.  The only mutable state that
survives between `FFX.PermuteInPlace` calls is the tweak-length-keyed
header cache; for any cache state reachable through the invariant
(fresh sentinel, or a coherent cached encryption), a call produces
exactly the output of the same call on a freshly constructed object,
for every key (opaque header encryption `E` and raw CBC-MAC `M`),
domain, tweak and input; and the invariant is preserved, so any
sequence of calls in any order keeps outputs equal to the fresh-object
outputs. -/
theorem claim5_deterministic (E : Nat → Nat) (M : Nat → List Nat → Nat → Nat → Nat)
    (lengthBits : Nat) (st : FFX.CacheState) (tweak : List Nat) (x : Nat)
    (hinv : st.tweakLen = -1 ∨
      ∃ t : Nat, st.tweakLen = (t : Int) ∧ st.encryptedP = E t) :
    (FFX.PermuteStateful E M lengthBits st tweak x).2 =
      (FFX.PermuteStateful E M lengthBits FFX.initCache tweak x).2 ∧
    ((FFX.PermuteStateful E M lengthBits st tweak x).1.tweakLen = -1 ∨
      ∃ t : Nat,
        (FFX.PermuteStateful E M lengthBits st tweak x).1.tweakLen = (t : Int) ∧
        (FFX.PermuteStateful E M lengthBits st tweak x).1.encryptedP = E t) := by
  have hcalc : ∀ s : FFX.CacheState,
      (s.tweakLen = -1 ∨ ∃ t : Nat, s.tweakLen = (t : Int) ∧ s.encryptedP = E t) →
      (FFX.calculateEncryptedP E s tweak.length).encryptedP = E tweak.length ∧
      (FFX.calculateEncryptedP E s tweak.length).tweakLen = (tweak.length : Int) := by
    intro s hs
    unfold FFX.calculateEncryptedP
    split
    · rename_i heq
      rcases hs with h1 | ⟨t, ht, hp⟩
      · rw [h1] at heq
        exact absurd heq (by omega)
      · rw [ht] at heq
        have htl : t = tweak.length := by omega
        subst htl
        exact ⟨hp, ht⟩
    · exact ⟨rfl, rfl⟩
  obtain ⟨hP1, hT1⟩ := hcalc st hinv
  obtain ⟨hP2, _⟩ := hcalc FFX.initCache (Or.inl rfl)
  refine ⟨?_, Or.inr ⟨tweak.length, ?_, ?_⟩⟩
  · show FFX.PermuteInPlace
        (fun i b => M (FFX.calculateEncryptedP E st tweak.length).encryptedP tweak i b)
        lengthBits x =
      FFX.PermuteInPlace
        (fun i b =>
          M (FFX.calculateEncryptedP E FFX.initCache tweak.length).encryptedP tweak i b)
        lengthBits x
    simp only [hP1, hP2]
  · exact hT1
  · exact hP1

theorem claim5_witness :
    (FFX.PermuteStateful (fun t => t) (fun _ _ _ _ => 0) 8
        ⟨((3 : Nat) : Int), (3 : Nat)⟩ [] 0).2 =
      (FFX.PermuteStateful (fun t => t) (fun _ _ _ _ => 0) 8
        FFX.initCache [] 0).2 ∧
    ((FFX.PermuteStateful (fun t => t) (fun _ _ _ _ => 0) 8
        ⟨((3 : Nat) : Int), (3 : Nat)⟩ [] 0).1.tweakLen = -1 ∨
      ∃ t : Nat,
        (FFX.PermuteStateful (fun t => t) (fun _ _ _ _ => 0) 8
          ⟨((3 : Nat) : Int), (3 : Nat)⟩ [] 0).1.tweakLen = (t : Int) ∧
        (FFX.PermuteStateful (fun t => t) (fun _ _ _ _ => 0) 8
          ⟨((3 : Nat) : Int), (3 : Nat)⟩ [] 0).1.encryptedP = t) :=
  claim5_deterministic (fun t => t) (fun _ _ _ _ => 0) 8
    ⟨((3 : Nat) : Int), (3 : Nat)⟩ [] 0 (Or.inr ⟨3, rfl, rfl⟩)

/-- C6: `NewN` derives `lengthBits` as the bit length of `N - 1`
clamped to a minimum of 2; consequently `2^(lengthBits-1) < N ≤
2^lengthBits` for `N ≥ 3` while `N ≤ 2` forces `lengthBits = 2`; and it
selects the FFX (AES-class) engine exactly when the resulting
`lengthBits` lies in `[8, 128]`. -/
theorem claim6_newn_domain (n : Nat) (hn : 1 ≤ n) :
    NewN.lengthBits n = max (bitLen (n - 1)) 2 ∧
    (n ≤ 2 → NewN.lengthBits n = 2) ∧
    (3 ≤ n → 2 ^ (NewN.lengthBits n - 1) < n ∧ n ≤ 2 ^ NewN.lengthBits n) ∧
    (NewN.usesFFX n = true ↔
      8 ≤ NewN.lengthBits n ∧ NewN.lengthBits n ≤ 128) := by
  refine ⟨?_, ?_, ?_, ?_⟩
  · simp only [NewN.lengthBits]
    split <;> omega
  · intro h
    have h12 : n = 1 ∨ n = 2 := by omega
    rcases h12 with rfl | rfl <;> decide
  · intro h3
    have hm : n - 1 ≠ 0 := by omega
    have hL := NewN.lengthBits_eq_log n h3
    constructor
    · rw [hL]
      have e : Nat.log2 (n - 1) + 1 - 1 = Nat.log2 (n - 1) := by omega
      rw [e]
      have h2 := Nat.log2_self_le hm
      omega
    · rw [hL]
      have h2 := Nat.lt_log2_self (n := n - 1)
      omega
  · simp [NewN.usesFFX, Bool.and_eq_true, decide_eq_true_eq]

theorem claim6_witness :
    2 ^ (NewN.lengthBits 10 - 1) < 10 ∧ 10 ≤ 2 ^ NewN.lengthBits 10 :=
  (claim6_newn_domain 10 (by decide)).2.2.1 (by decide)

/-- C7: both constructors set the round count from `lengthBits` alone
by the same table: at most 9 bits gives 36 rounds, at most 13 gives 30,
at most 19 gives 24, at most 31 gives 18, anything larger gives 12. -/
theorem claim7_round_schedule (lengthBits : Nat) :
    FFX.rounds lengthBits = FeistelSHAKE128.rounds lengthBits ∧
    (lengthBits ≤ 9 → FFX.rounds lengthBits = 36) ∧
    (9 < lengthBits → lengthBits ≤ 13 → FFX.rounds lengthBits = 30) ∧
    (13 < lengthBits → lengthBits ≤ 19 → FFX.rounds lengthBits = 24) ∧
    (19 < lengthBits → lengthBits ≤ 31 → FFX.rounds lengthBits = 18) ∧
    (31 < lengthBits → FFX.rounds lengthBits = 12) := by
  unfold FFX.rounds FeistelSHAKE128.rounds
  refine ⟨rfl, ?_, ?_, ?_, ?_, ?_⟩ <;>
    intros <;> split_ifs <;> first | rfl | omega

theorem claim7_witness :
    FFX.rounds 14 = FeistelSHAKE128.rounds 14 ∧ FFX.rounds 14 = 24 :=
  ⟨(claim7_round_schedule 14).1,
   (claim7_round_schedule 14).2.2.2.1 (by decide) (by decide)⟩

/-- C8: for odd `lengthBits` the two halves have widths
`floor(lengthBits/2)` and `ceil(lengthBits/2) = (lengthBits+1)/2`, and
the engines put the larger half on opposite sides: the FFX initial
split takes the low-order `ceil` bits as B, the FeistelSHAKE128 split
takes the low-order `floor` bits as B. -/
theorem claim8_half_widths (lengthBits x : Nat) (hodd : lengthBits % 2 = 1) :
    lengthBits / 2 + (lengthBits + 1) / 2 = lengthBits ∧
    lengthBits / 2 < (lengthBits + 1) / 2 ∧
    FFX.splitB lengthBits x = x % 2 ^ ((lengthBits + 1) / 2) ∧
    FFX.splitA lengthBits x = x / 2 ^ ((lengthBits + 1) / 2) ∧
    FeistelSHAKE128.splitB lengthBits x = x % 2 ^ (lengthBits / 2) ∧
    FeistelSHAKE128.splitA lengthBits x = x / 2 ^ (lengthBits / 2) := by
  have e : lengthBits - lengthBits / 2 = (lengthBits + 1) / 2 := by omega
  refine ⟨by omega, by omega, ?_, ?_, ?_, ?_⟩
  · rw [FFX.splitB, e, Nat.and_pow_two_sub_one_eq_mod]
  · rw [FFX.splitA, e, Nat.shiftRight_eq_div_pow]
  · rw [FeistelSHAKE128.splitB, Nat.and_pow_two_sub_one_eq_mod]
  · rw [FeistelSHAKE128.splitA, Nat.shiftRight_eq_div_pow]

theorem claim8_witness :
    FFX.splitB 5 27 = 27 % 2 ^ ((5 + 1) / 2) ∧
    FeistelSHAKE128.splitB 5 27 = 27 % 2 ^ (5 / 2) := by
  have h := claim8_half_widths 5 27 (by decide)
  exact ⟨h.2.2.1, h.2.2.2.2.1⟩

/-- Helper for C10: a list whose length is exactly `16 * k` splits into
`k` full 16-byte blocks, every slice in bounds. -/
theorem qBlocks_of_length : ∀ (k : Nat) (l : List Nat), l.length = 16 * k →
    ∃ cs, FFX.qBlocks k l = some cs ∧ cs.length = k ∧
      ∀ c ∈ cs, c.length = 16 := by
  intro k
  induction k with
  | zero =>
    intro l hl
    have h0 : l = [] := List.eq_nil_of_length_eq_zero (by omega)
    subst h0
    exact ⟨[], by simp [FFX.qBlocks], rfl, by simp⟩
  | succ k ih =>
    intro l hl
    have h16 : 16 ≤ l.length := by omega
    obtain ⟨cs, hcs, hlen, hall⟩ := ih (l.drop 16) (by simp; omega)
    refine ⟨l.take 16 :: cs, ?_, ?_, ?_⟩
    · simp [FFX.qBlocks, h16, hcs]
    · simp [hlen]
    · intro c hc
      rcases List.mem_cons.mp hc with hc1 | hc1
      · subst hc1
        simp
        omega
      · exact hall c hc1

/-- C10: for every tweak, the Q buffer built at the start of
`FFX.PermuteInPlace` has a length that is a nonzero multiple of the
16-byte AES block size, so the CBC-MAC loop in `FFX.RoundFunc` performs
exactly `len(q) / 16` iterations and every 16-byte slice it takes is in
bounds. -/
theorem claim10_q_buffer (tweak : List Nat) :
    0 < (FFX.buildQ tweak).length ∧
    (FFX.buildQ tweak).length % 16 = 0 ∧
    ∃ cs, FFX.qBlocks ((FFX.buildQ tweak).length / 16) (FFX.buildQ tweak) =
        some cs ∧
      cs.length = (FFX.buildQ tweak).length / 16 ∧
      ∀ c ∈ cs, c.length = 16 := by
  have hlen : (FFX.buildQ tweak).length =
      tweak.length + FFX.qZeroPad tweak.length + 9 := by
    simp [FFX.buildQ]
    omega
  have hmod : (FFX.buildQ tweak).length % 16 = 0 := by
    rw [hlen]
    unfold FFX.qZeroPad
    omega
  refine ⟨by omega, hmod, ?_⟩
  exact qBlocks_of_length _ (FFX.buildQ tweak) (by omega)

/-! ## The README example

The underlying 3-bit SHAKE engine keyed by "mykey" is evaluated at each
point it is asked for during the five cycle walks; each evaluation (36
Keccak-f applications) is certified in its own lemma, and the walks are
then assembled by rewriting. -/

theorem cycleWalk_succ (g : Nat → Nat) (n fuel x : Nat) :
    cycleWalk g n (fuel + 1) x =
      if g x < n then some (g x) else cycleWalk g n fuel (g x) := rfl

theorem feistelLoop_add (rf : Nat → Nat → Nat) :
    ∀ (m n i : Nat) (ab : Nat × Nat),
      feistelLoop rf i (m + n) ab =
        feistelLoop rf (i + m) n (feistelLoop rf i m ab) := by
  intro m
  induction m with
  | zero =>
    intro n i ab
    simp [feistelLoop]
  | succ m ih =>
    intro n i ab
    have e1 : m + 1 + n = m + n + 1 := by omega
    have e2 : i + (m + 1) = i + 1 + m := by omega
    rw [e1]
    show feistelLoop rf (i + 1) (m + n) (ab.2, ab.1 ^^^ rf i ab.2) =
      feistelLoop rf (i + (m + 1)) n (feistelLoop rf i (m + 1) ab)
    rw [ih n (i + 1) (ab.2, ab.1 ^^^ rf i ab.2), e2]
    rfl

theorem feistelPermute_eq (rf : Nat → Nat → Nat) (k r x : Nat) :
    feistelPermute rf k r x =
      ((feistelLoop rf 0 r (x >>> k, x &&& (2 ^ k - 1))).1 <<< k) |||
        (feistelLoop rf 0 r (x >>> k, x &&& (2 ^ k - 1))).2 := rfl

set_option maxRecDepth 1000000 in
set_option maxHeartbeats 8000000 in
theorem loopChunkA0 : feistelLoop (FeistelSHAKE128.RoundFuncMasked
    (FeistelSHAKE128.shakeRaw exampleKey [] 3) 3) 0 12 (0, 0) = (3, 0) := by decide

set_option maxRecDepth 1000000 in
set_option maxHeartbeats 8000000 in
theorem loopChunkB0 : feistelLoop (FeistelSHAKE128.RoundFuncMasked
    (FeistelSHAKE128.shakeRaw exampleKey [] 3) 3) 12 12 (3, 0) = (3, 0) := by decide

set_option maxRecDepth 1000000 in
set_option maxHeartbeats 8000000 in
theorem loopChunkC0 : feistelLoop (FeistelSHAKE128.RoundFuncMasked
    (FeistelSHAKE128.shakeRaw exampleKey [] 3) 3) 24 12 (3, 0) = (3, 0) := by decide

set_option maxRecDepth 1000000 in
set_option maxHeartbeats 8000000 in
theorem loopChunkA1 : feistelLoop (FeistelSHAKE128.RoundFuncMasked
    (FeistelSHAKE128.shakeRaw exampleKey [] 3) 3) 0 12 (0, 1) = (1, 1) := by decide

set_option maxRecDepth 1000000 in
set_option maxHeartbeats 8000000 in
theorem loopChunkB1 : feistelLoop (FeistelSHAKE128.RoundFuncMasked
    (FeistelSHAKE128.shakeRaw exampleKey [] 3) 3) 12 12 (1, 1) = (0, 0) := by decide

set_option maxRecDepth 1000000 in
set_option maxHeartbeats 8000000 in
theorem loopChunkC1 : feistelLoop (FeistelSHAKE128.RoundFuncMasked
    (FeistelSHAKE128.shakeRaw exampleKey [] 3) 3) 24 12 (0, 0) = (2, 0) := by decide

set_option maxRecDepth 1000000 in
set_option maxHeartbeats 8000000 in
theorem loopChunkA2 : feistelLoop (FeistelSHAKE128.RoundFuncMasked
    (FeistelSHAKE128.shakeRaw exampleKey [] 3) 3) 0 12 (1, 0) = (0, 0) := by decide

set_option maxRecDepth 1000000 in
set_option maxHeartbeats 8000000 in
theorem loopChunkB2 : feistelLoop (FeistelSHAKE128.RoundFuncMasked
    (FeistelSHAKE128.shakeRaw exampleKey [] 3) 3) 12 12 (0, 0) = (2, 0) := by decide

set_option maxRecDepth 1000000 in
set_option maxHeartbeats 8000000 in
theorem loopChunkC2 : feistelLoop (FeistelSHAKE128.RoundFuncMasked
    (FeistelSHAKE128.shakeRaw exampleKey [] 3) 3) 24 12 (2, 0) = (1, 0) := by decide

set_option maxRecDepth 1000000 in
set_option maxHeartbeats 8000000 in
theorem loopChunkA3 : feistelLoop (FeistelSHAKE128.RoundFuncMasked
    (FeistelSHAKE128.shakeRaw exampleKey [] 3) 3) 0 12 (1, 1) = (0, 1) := by decide

set_option maxRecDepth 1000000 in
set_option maxHeartbeats 8000000 in
theorem loopChunkB3 : feistelLoop (FeistelSHAKE128.RoundFuncMasked
    (FeistelSHAKE128.shakeRaw exampleKey [] 3) 3) 12 12 (0, 1) = (1, 1) := by decide

set_option maxRecDepth 1000000 in
set_option maxHeartbeats 8000000 in
theorem loopChunkC3 : feistelLoop (FeistelSHAKE128.RoundFuncMasked
    (FeistelSHAKE128.shakeRaw exampleKey [] 3) 3) 24 12 (1, 1) = (0, 0) := by decide

set_option maxRecDepth 1000000 in
set_option maxHeartbeats 8000000 in
theorem loopChunkA4 : feistelLoop (FeistelSHAKE128.RoundFuncMasked
    (FeistelSHAKE128.shakeRaw exampleKey [] 3) 3) 0 12 (2, 0) = (2, 1) := by decide

set_option maxRecDepth 1000000 in
set_option maxHeartbeats 8000000 in
theorem loopChunkB4 : feistelLoop (FeistelSHAKE128.RoundFuncMasked
    (FeistelSHAKE128.shakeRaw exampleKey [] 3) 3) 12 12 (2, 1) = (0, 1) := by decide

set_option maxRecDepth 1000000 in
set_option maxHeartbeats 8000000 in
theorem loopChunkC4 : feistelLoop (FeistelSHAKE128.RoundFuncMasked
    (FeistelSHAKE128.shakeRaw exampleKey [] 3) 3) 24 12 (0, 1) = (2, 1) := by decide

set_option maxRecDepth 1000000 in
set_option maxHeartbeats 8000000 in
theorem loopChunkA5 : feistelLoop (FeistelSHAKE128.RoundFuncMasked
    (FeistelSHAKE128.shakeRaw exampleKey [] 3) 3) 0 12 (2, 1) = (2, 0) := by decide

set_option maxRecDepth 1000000 in
set_option maxHeartbeats 8000000 in
theorem loopChunkB5 : feistelLoop (FeistelSHAKE128.RoundFuncMasked
    (FeistelSHAKE128.shakeRaw exampleKey [] 3) 3) 12 12 (2, 0) = (3, 1) := by decide

set_option maxRecDepth 1000000 in
set_option maxHeartbeats 8000000 in
theorem loopChunkC5 : feistelLoop (FeistelSHAKE128.RoundFuncMasked
    (FeistelSHAKE128.shakeRaw exampleKey [] 3) 3) 24 12 (3, 1) = (1, 1) := by decide

set_option maxRecDepth 1000000 in
set_option maxHeartbeats 8000000 in
theorem loopChunkA6 : feistelLoop (FeistelSHAKE128.RoundFuncMasked
    (FeistelSHAKE128.shakeRaw exampleKey [] 3) 3) 0 12 (3, 0) = (1, 0) := by decide

set_option maxRecDepth 1000000 in
set_option maxHeartbeats 8000000 in
theorem loopChunkB6 : feistelLoop (FeistelSHAKE128.RoundFuncMasked
    (FeistelSHAKE128.shakeRaw exampleKey [] 3) 3) 12 12 (1, 0) = (2, 1) := by decide

set_option maxRecDepth 1000000 in
set_option maxHeartbeats 8000000 in
theorem loopChunkC6 : feistelLoop (FeistelSHAKE128.RoundFuncMasked
    (FeistelSHAKE128.shakeRaw exampleKey [] 3) 3) 24 12 (2, 1) = (0, 1) := by decide

theorem engineExample0 : FeistelSHAKE128.PermuteInPlace
    (FeistelSHAKE128.shakeRaw exampleKey [] 3) 3 0 = 6 := by
  unfold FeistelSHAKE128.PermuteInPlace
  rw [feistelPermute_eq,
    show FeistelSHAKE128.rounds 3 = 36 from rfl,
    show ((0 : Nat) >>> (3 / 2)) = 0 from rfl,
    show ((0 : Nat) &&& (2 ^ (3 / 2) - 1)) = 0 from rfl,
    show (36 : Nat) = 12 + 24 from rfl, feistelLoop_add]
  simp only [Nat.reduceAdd]
  rw [loopChunkA0, show (24 : Nat) = 12 + 12 from rfl, feistelLoop_add]
  simp only [Nat.reduceAdd]
  rw [loopChunkB0, loopChunkC0]
  decide

theorem engineExample1 : FeistelSHAKE128.PermuteInPlace
    (FeistelSHAKE128.shakeRaw exampleKey [] 3) 3 1 = 4 := by
  unfold FeistelSHAKE128.PermuteInPlace
  rw [feistelPermute_eq,
    show FeistelSHAKE128.rounds 3 = 36 from rfl,
    show ((1 : Nat) >>> (3 / 2)) = 0 from rfl,
    show ((1 : Nat) &&& (2 ^ (3 / 2) - 1)) = 1 from rfl,
    show (36 : Nat) = 12 + 24 from rfl, feistelLoop_add]
  simp only [Nat.reduceAdd]
  rw [loopChunkA1, show (24 : Nat) = 12 + 12 from rfl, feistelLoop_add]
  simp only [Nat.reduceAdd]
  rw [loopChunkB1, loopChunkC1]
  decide

theorem engineExample2 : FeistelSHAKE128.PermuteInPlace
    (FeistelSHAKE128.shakeRaw exampleKey [] 3) 3 2 = 2 := by
  unfold FeistelSHAKE128.PermuteInPlace
  rw [feistelPermute_eq,
    show FeistelSHAKE128.rounds 3 = 36 from rfl,
    show ((2 : Nat) >>> (3 / 2)) = 1 from rfl,
    show ((2 : Nat) &&& (2 ^ (3 / 2) - 1)) = 0 from rfl,
    show (36 : Nat) = 12 + 24 from rfl, feistelLoop_add]
  simp only [Nat.reduceAdd]
  rw [loopChunkA2, show (24 : Nat) = 12 + 12 from rfl, feistelLoop_add]
  simp only [Nat.reduceAdd]
  rw [loopChunkB2, loopChunkC2]
  decide

theorem engineExample3 : FeistelSHAKE128.PermuteInPlace
    (FeistelSHAKE128.shakeRaw exampleKey [] 3) 3 3 = 0 := by
  unfold FeistelSHAKE128.PermuteInPlace
  rw [feistelPermute_eq,
    show FeistelSHAKE128.rounds 3 = 36 from rfl,
    show ((3 : Nat) >>> (3 / 2)) = 1 from rfl,
    show ((3 : Nat) &&& (2 ^ (3 / 2) - 1)) = 1 from rfl,
    show (36 : Nat) = 12 + 24 from rfl, feistelLoop_add]
  simp only [Nat.reduceAdd]
  rw [loopChunkA3, show (24 : Nat) = 12 + 12 from rfl, feistelLoop_add]
  simp only [Nat.reduceAdd]
  rw [loopChunkB3, loopChunkC3]
  decide

theorem engineExample4 : FeistelSHAKE128.PermuteInPlace
    (FeistelSHAKE128.shakeRaw exampleKey [] 3) 3 4 = 5 := by
  unfold FeistelSHAKE128.PermuteInPlace
  rw [feistelPermute_eq,
    show FeistelSHAKE128.rounds 3 = 36 from rfl,
    show ((4 : Nat) >>> (3 / 2)) = 2 from rfl,
    show ((4 : Nat) &&& (2 ^ (3 / 2) - 1)) = 0 from rfl,
    show (36 : Nat) = 12 + 24 from rfl, feistelLoop_add]
  simp only [Nat.reduceAdd]
  rw [loopChunkA4, show (24 : Nat) = 12 + 12 from rfl, feistelLoop_add]
  simp only [Nat.reduceAdd]
  rw [loopChunkB4, loopChunkC4]
  decide

theorem engineExample5 : FeistelSHAKE128.PermuteInPlace
    (FeistelSHAKE128.shakeRaw exampleKey [] 3) 3 5 = 3 := by
  unfold FeistelSHAKE128.PermuteInPlace
  rw [feistelPermute_eq,
    show FeistelSHAKE128.rounds 3 = 36 from rfl,
    show ((5 : Nat) >>> (3 / 2)) = 2 from rfl,
    show ((5 : Nat) &&& (2 ^ (3 / 2) - 1)) = 1 from rfl,
    show (36 : Nat) = 12 + 24 from rfl, feistelLoop_add]
  simp only [Nat.reduceAdd]
  rw [loopChunkA5, show (24 : Nat) = 12 + 12 from rfl, feistelLoop_add]
  simp only [Nat.reduceAdd]
  rw [loopChunkB5, loopChunkC5]
  decide

theorem engineExample6 : FeistelSHAKE128.PermuteInPlace
    (FeistelSHAKE128.shakeRaw exampleKey [] 3) 3 6 = 1 := by
  unfold FeistelSHAKE128.PermuteInPlace
  rw [feistelPermute_eq,
    show FeistelSHAKE128.rounds 3 = 36 from rfl,
    show ((6 : Nat) >>> (3 / 2)) = 3 from rfl,
    show ((6 : Nat) &&& (2 ^ (3 / 2) - 1)) = 0 from rfl,
    show (36 : Nat) = 12 + 24 from rfl, feistelLoop_add]
  simp only [Nat.reduceAdd]
  rw [loopChunkA6, show (24 : Nat) = 12 + 12 from rfl, feistelLoop_add]
  simp only [Nat.reduceAdd]
  rw [loopChunkB6, loopChunkC6]
  decide

theorem walkExample0 : ArbitraryN.PermuteInPlace
    (FeistelSHAKE128.PermuteInPlace (FeistelSHAKE128.shakeRaw exampleKey [] 3) 3) 5 8 0 = some 1 := by
  unfold ArbitraryN.PermuteInPlace
  rw [if_neg (by decide : ¬(5 ≤ 0))]
  rw [show (8 : Nat) = 7 + 1 from rfl, cycleWalk_succ, engineExample0]
  rw [if_neg (by decide : ¬((6 : Nat) < 5))]
  rw [show (7 : Nat) = 6 + 1 from rfl, cycleWalk_succ, engineExample6]
  rw [if_pos (by decide : (1 : Nat) < 5)]

theorem walkExample1 : ArbitraryN.PermuteInPlace
    (FeistelSHAKE128.PermuteInPlace (FeistelSHAKE128.shakeRaw exampleKey [] 3) 3) 5 8 1 = some 4 := by
  unfold ArbitraryN.PermuteInPlace
  rw [if_neg (by decide : ¬(5 ≤ 1))]
  rw [show (8 : Nat) = 7 + 1 from rfl, cycleWalk_succ, engineExample1]
  rw [if_pos (by decide : (4 : Nat) < 5)]

theorem walkExample2 : ArbitraryN.PermuteInPlace
    (FeistelSHAKE128.PermuteInPlace (FeistelSHAKE128.shakeRaw exampleKey [] 3) 3) 5 8 2 = some 2 := by
  unfold ArbitraryN.PermuteInPlace
  rw [if_neg (by decide : ¬(5 ≤ 2))]
  rw [show (8 : Nat) = 7 + 1 from rfl, cycleWalk_succ, engineExample2]
  rw [if_pos (by decide : (2 : Nat) < 5)]

theorem walkExample3 : ArbitraryN.PermuteInPlace
    (FeistelSHAKE128.PermuteInPlace (FeistelSHAKE128.shakeRaw exampleKey [] 3) 3) 5 8 3 = some 0 := by
  unfold ArbitraryN.PermuteInPlace
  rw [if_neg (by decide : ¬(5 ≤ 3))]
  rw [show (8 : Nat) = 7 + 1 from rfl, cycleWalk_succ, engineExample3]
  rw [if_pos (by decide : (0 : Nat) < 5)]

theorem walkExample4 : ArbitraryN.PermuteInPlace
    (FeistelSHAKE128.PermuteInPlace (FeistelSHAKE128.shakeRaw exampleKey [] 3) 3) 5 8 4 = some 3 := by
  unfold ArbitraryN.PermuteInPlace
  rw [if_neg (by decide : ¬(5 ≤ 4))]
  rw [show (8 : Nat) = 7 + 1 from rfl, cycleWalk_succ, engineExample4]
  rw [if_neg (by decide : ¬((5 : Nat) < 5))]
  rw [show (7 : Nat) = 6 + 1 from rfl, cycleWalk_succ, engineExample5]
  rw [if_pos (by decide : (3 : Nat) < 5)]

/-- C9: with the key bytes of "mykey" and `N = 5`, the range adapter
built by `NewNInt` maps 0 to 1, 1 to 4, 2 to 2, 3 to 0 and 4 to 3, by
direct evaluation of the embedded SHAKE128 (Keccak) pipeline. -/
theorem claim9_readme_example :
    examplePermuteInt 0 = some 1 ∧ examplePermuteInt 1 = some 4 ∧
    examplePermuteInt 2 = some 2 ∧ examplePermuteInt 3 = some 0 ∧
    examplePermuteInt 4 = some 3 := by
  have hperm : ∀ x, examplePermuteInt x =
      ArbitraryN.PermuteInPlace
        (FeistelSHAKE128.PermuteInPlace (FeistelSHAKE128.shakeRaw exampleKey [] 3) 3) 5 8 x := fun _ => rfl
  exact ⟨(hperm 0).trans walkExample0, (hperm 1).trans walkExample1,
    (hperm 2).trans walkExample2, (hperm 3).trans walkExample3,
    (hperm 4).trans walkExample4⟩
